import Mathlib

/-!
Verification of the `assert_enum_variants` compile-time check.

The crate exports a single declarative Rust construct, `assert_enum_variants`,
which expands (src/lib.rs, lines 139-158) to

  const _: () = {
      #[allow(unreachable_code)]
      if false {
          #[allow(clippy::diverging_sub_expression)]
          let _unreachable_obj: $enum = core::unreachable!();
          #[allow(unused_imports)]
          use $enum::{ $($variant),* };
          match _unreachable_obj {
              $( $variant { .. } => (), )*
          };
      }
  };

The check is delegated to the host compiler's analyses over this expansion:

* `use $enum::{...}` fails name resolution when an expected name is not a
  declared variant (E0432, naming the unknown identifier), and when the same
  name is listed twice in one use list (E0252, duplicate definition — this
  fires even when both occurrences denote the same item).
* the `match` fails exhaustiveness checking when a declared variant has no
  arm (E0004, naming the missing variants).  Name-resolution errors abort the
  build before match checking runs.
* an arm pattern `$variant { .. }` is a struct pattern consisting only of a
  rest pattern; the host accepts it for unit, tuple and record variants alike,
  so payload shapes never influence the outcome.

We embed an enum definition as a list of variant descriptors (identifier plus
payload shape), the call-site list as a list of identifiers, and the host
checks as executable functions producing the list of hard errors of the
expansion.  Runtime behaviour of the expansion is embedded separately as a
statement with an execution semantics, to reason about the `if false` guard.
-/

namespace AssertEnumVariants

/-- Payload shape of one declared variant: `A`, `B(u32)`, or `C { a: u64, b: u32 }`. -/
inductive PayloadShape where
  | unit
  | tuple (arity : Nat)
  | record (fields : List String)
deriving DecidableEq, Repr

/-- One declared variant of the target enum: an identifier plus a payload
shape that the check is expected to ignore. -/
structure Variant where
  name : String
  shape : PayloadShape
deriving DecidableEq, Repr

/-- The identifiers of the declared variants, in declaration order. -/
def variantNames (decl : List Variant) : List String :=
  decl.map Variant.name

/-- Whether the host accepts the arm pattern `V { .. }` (a struct pattern that
is only a rest pattern) for a variant of the given payload shape.  rustc
accepts it for every shape; the case split records that this was checked per
shape rather than assumed. -/
def restPatternAccepts : PayloadShape → Bool
  | PayloadShape.unit => true
  | PayloadShape.tuple _ => true
  | PayloadShape.record _ => true

/-- The hard errors the host compiler can emit on the expansion. -/
inductive CompileError where
  /-- E0252: the same name occurs twice in the `use` list. -/
  | duplicateImport (name : String)
  /-- E0432: an expected name is not a declared variant of the enum. -/
  | unresolvedImport (name : String)
  /-- A `V { .. }` arm pattern rejected for the variant's payload shape
  (never actually produced by rustc; kept so the model consults shapes). -/
  | invalidRestPattern (name : String)
  /-- E0004: the match is missing arms for the listed declared variants. -/
  | nonExhaustiveMatch (missing : List String)
deriving DecidableEq, Repr

/-- E0252 errors of `use $enum::{ ... }`: one per name listed more than once. -/
def duplicateImportErrors (expected : List String) : List CompileError :=
  ((expected.filter (fun n => decide (1 < expected.count n))).dedup).map
    CompileError.duplicateImport

/-- E0432 errors of `use $enum::{ ... }`: one per listed name that is not a
declared variant. -/
def unresolvedImportErrors (decl : List Variant) (expected : List String) :
    List CompileError :=
  (expected.filter (fun n => decide (n ∉ variantNames decl))).map
    CompileError.unresolvedImport

/-- All name-resolution errors of the expansion's `use` item. -/
def resolutionErrors (decl : List Variant) (expected : List String) :
    List CompileError :=
  duplicateImportErrors expected ++ unresolvedImportErrors decl expected

/-- Errors from the arm patterns `$variant { .. }` themselves: an arm whose
variant's payload shape rejects the rest pattern.  rustc accepts the rest
pattern for every shape, so this list is provably empty. -/
def armErrors (decl : List Variant) (expected : List String) :
    List CompileError :=
  (expected.filter (fun n =>
    match decl.find? (fun v => v.name == n) with
    | some v => !restPatternAccepts v.shape
    | none => false)).map CompileError.invalidRestPattern

/-- Declared variants with no arm in the match, in declaration order. -/
def missingVariants (decl : List Variant) (expected : List String) :
    List String :=
  (variantNames decl).filter (fun n => decide (n ∉ expected))

/-- Errors of the `match` statement: arm-pattern errors, plus E0004 carrying
the missing variants when the arms are not exhaustive. -/
def matchErrors (decl : List Variant) (expected : List String) :
    List CompileError :=
  armErrors decl expected ++
    (if missingVariants decl expected = [] then []
     else [CompileError.nonExhaustiveMatch (missingVariants decl expected)])

/-- The hard errors of the whole expansion.  Name-resolution errors abort the
build before the match is type checked, mirroring rustc's phase ordering. -/
def checkErrors (decl : List Variant) (expected : List String) :
    List CompileError :=
  match resolutionErrors decl expected with
  | [] => matchErrors decl expected
  | e :: es => e :: es

/-- Outcome of the build containing the invocation. -/
inductive BuildResult where
  /-- The build proceeds; nothing of the invocation remains. -/
  | proceed
  /-- The build is aborted carrying the diagnostics. -/
  | abort (errors : List CompileError)
deriving DecidableEq, Repr

/-- Build outcome of one invocation: proceed exactly when the expansion
produced no hard error, abort carrying the errors otherwise. -/
def build (decl : List Variant) (expected : List String) : BuildResult :=
  match checkErrors decl expected with
  | [] => BuildResult.proceed
  | e :: es => BuildResult.abort (e :: es)

/-- The validation outcome: `true` iff the invocation compiles. -/
def validate (decl : List Variant) (expected : List String) : Bool :=
  (checkErrors decl expected).isEmpty

/-! ### Runtime view of the expansion

The expansion's `const` body is a single `if false { ... }` statement.  We
embed it as a statement of a small language whose execution collects the
observable events (panicking via `core::unreachable!()`, and completing the
`let` binding, i.e. holding a value of the target enum type). -/

/-- Observable runtime events of the expansion body. -/
inductive Event where
  /-- `core::unreachable!()` was executed. -/
  | panicked
  /-- The `let _unreachable_obj: $enum = ...` binding completed, so a value
  of the target type exists at run time. -/
  | boundEnumValue
deriving DecidableEq, Repr

/-- Statements of the expansion, as far as runtime behaviour is concerned. -/
inductive Stmt where
  | skip
  /-- `core::unreachable!()`. -/
  | panic
  /-- Completing the binding of a value of the target enum type. -/
  | bindEnumValue
  /-- `use $enum::{ ... }` (no runtime effect). -/
  | useImport (names : List String)
  /-- `match _unreachable_obj { ... }` with one arm per listed name. -/
  | matchStmt (arms : List String)
  | seq (first second : Stmt)
  | ifStmt (cond : Bool) (body : Stmt)
deriving DecidableEq, Repr

/-- Execution: the list of events, in order.  A panic stops execution of the
remainder of a sequence. -/
def exec : Stmt → List Event
  | Stmt.skip => []
  | Stmt.panic => [Event.panicked]
  | Stmt.bindEnumValue => [Event.boundEnumValue]
  | Stmt.useImport _ => []
  | Stmt.matchStmt _ => []
  | Stmt.seq a b =>
    let ea := exec a
    if Event.panicked ∈ ea then ea else ea ++ exec b
  | Stmt.ifStmt c b => if c then exec b else []

/-- Body of the `if false`: the diverging `let` (evaluate `unreachable!()`,
then complete the binding), the `use` item, then the match. -/
def expansionBody (expected : List String) : Stmt :=
  Stmt.seq (Stmt.seq Stmt.panic Stmt.bindEnumValue)
    (Stmt.seq (Stmt.useImport expected) (Stmt.matchStmt expected))

/-- The whole statement the invocation expands to: the body guarded by the
literal condition `false`. -/
def expansion (expected : List String) : Stmt :=
  Stmt.ifStmt false (expansionBody expected)

/-! ### Concrete enums from the crate's test module -/

/-- `my_mod::MyEnum` from the test module: `A`, `B(u32)`, `C { a: u64, b: u32 }`. -/
def myEnumVariants : List Variant :=
  [⟨"A", PayloadShape.unit⟩, ⟨"B", PayloadShape.tuple 1⟩,
   ⟨"C", PayloadShape.record ["a", "b"]⟩]

/-- `Never` from the test module: an uninhabited enum with zero variants. -/
def neverVariants : List Variant := []

/-- A relabelled `MyEnum`: same variant identifiers, different payload shapes. -/
def myEnumVariantsAlt : List Variant :=
  [⟨"A", PayloadShape.record ["x"]⟩, ⟨"B", PayloadShape.unit⟩,
   ⟨"C", PayloadShape.tuple 2⟩]

end AssertEnumVariants

namespace AssertEnumVariants

theorem restPatternAccepts_eq_true (s : PayloadShape) : restPatternAccepts s = true := by
  cases s <;> rfl

theorem duplicateImportErrors_eq_nil_iff (expected : List String) :
    duplicateImportErrors expected = [] ↔ expected.Nodup := by
  simp only [duplicateImportErrors, List.map_eq_nil_iff, List.dedup_eq_nil,
    List.filter_eq_nil_iff, decide_eq_true_eq, not_lt]
  rw [List.nodup_iff_count_le_one]
  constructor
  · intro h a
    by_cases ha : a ∈ expected
    · exact h a ha
    · simp [List.count_eq_zero_of_not_mem ha]
  · intro h a _
    exact h a

theorem unresolvedImportErrors_eq_nil_iff (decl : List Variant) (expected : List String) :
    unresolvedImportErrors decl expected = [] ↔ ∀ n ∈ expected, n ∈ variantNames decl := by
  simp [unresolvedImportErrors, List.filter_eq_nil_iff]

theorem armErrors_eq_nil (decl : List Variant) (expected : List String) :
    armErrors decl expected = [] := by
  simp only [armErrors, List.map_eq_nil_iff, List.filter_eq_nil_iff]
  intro n _
  cases h : decl.find? (fun v => v.name == n) with
  | none => simp [h]
  | some v => simp [h, restPatternAccepts_eq_true]

theorem missingVariants_eq_nil_iff (decl : List Variant) (expected : List String) :
    missingVariants decl expected = [] ↔ ∀ n ∈ variantNames decl, n ∈ expected := by
  simp [missingVariants, List.filter_eq_nil_iff]

theorem resolutionErrors_eq_nil_iff (decl : List Variant) (expected : List String) :
    resolutionErrors decl expected = [] ↔
      expected.Nodup ∧ ∀ n ∈ expected, n ∈ variantNames decl := by
  rw [resolutionErrors, List.append_eq_nil, duplicateImportErrors_eq_nil_iff,
    unresolvedImportErrors_eq_nil_iff]

theorem checkErrors_of_resolution_nil {decl : List Variant} {expected : List String}
    (h : resolutionErrors decl expected = []) :
    checkErrors decl expected = matchErrors decl expected := by
  unfold checkErrors
  rw [h]

theorem checkErrors_of_resolution_ne_nil {decl : List Variant} {expected : List String}
    (h : resolutionErrors decl expected ≠ []) :
    checkErrors decl expected = resolutionErrors decl expected := by
  unfold checkErrors
  cases hres : resolutionErrors decl expected with
  | nil => exact absurd hres h
  | cons e es => rfl

theorem checkErrors_eq_nil_iff (decl : List Variant) (expected : List String) :
    checkErrors decl expected = [] ↔
      expected.Nodup ∧ (∀ n ∈ expected, n ∈ variantNames decl) ∧
        ∀ n ∈ variantNames decl, n ∈ expected := by
  constructor
  · intro h
    by_cases hres : resolutionErrors decl expected = []
    · have hmatch := (checkErrors_of_resolution_nil hres) ▸ h
      have hcov : missingVariants decl expected = [] := by
        by_contra hne
        rw [matchErrors, armErrors_eq_nil, if_neg hne] at hmatch
        simp at hmatch
      obtain ⟨hnd, hsub⟩ := (resolutionErrors_eq_nil_iff decl expected).mp hres
      exact ⟨hnd, hsub, (missingVariants_eq_nil_iff decl expected).mp hcov⟩
    · rw [checkErrors_of_resolution_ne_nil hres] at h
      exact absurd h hres
  · rintro ⟨hnd, hsub, hcov⟩
    have hres : resolutionErrors decl expected = [] :=
      (resolutionErrors_eq_nil_iff decl expected).mpr ⟨hnd, hsub⟩
    rw [checkErrors_of_resolution_nil hres, matchErrors, armErrors_eq_nil,
      if_pos ((missingVariants_eq_nil_iff decl expected).mpr hcov)]
    rfl

theorem validate_eq_true_iff (decl : List Variant) (expected : List String) :
    validate decl expected = true ↔
      expected.Nodup ∧ ∀ n, n ∈ expected ↔ n ∈ variantNames decl := by
  rw [validate, List.isEmpty_iff, checkErrors_eq_nil_iff]
  constructor
  · rintro ⟨hnd, hsub, hcov⟩
    exact ⟨hnd, fun n => ⟨hsub n, hcov n⟩⟩
  · rintro ⟨hnd, hiff⟩
    exact ⟨hnd, fun n hn => (hiff n).mp hn, fun n hn => (hiff n).mpr hn⟩

theorem validate_eq_false_iff (decl : List Variant) (expected : List String) :
    validate decl expected = false ↔ checkErrors decl expected ≠ [] := by
  rw [validate]
  cases h : checkErrors decl expected <;> simp [h]

theorem build_eq_proceed_iff (decl : List Variant) (expected : List String) :
    build decl expected = BuildResult.proceed ↔ checkErrors decl expected = [] := by
  unfold build
  cases h : checkErrors decl expected with
  | nil => simp
  | cons e es => simp

end AssertEnumVariants

namespace AssertEnumVariants

theorem build_of_checkErrors_ne_nil {decl : List Variant} {expected : List String}
    (h : checkErrors decl expected ≠ []) :
    build decl expected = BuildResult.abort (checkErrors decl expected) := by
  unfold build
  cases hc : checkErrors decl expected with
  | nil => exact absurd hc h
  | cons e es => rfl

/-- C1 (amended): `validate` succeeds iff the expected list has no duplicate
name and, as a set, equals the set of declared variant names; success is
exactly the build proceeding. -/
theorem validate_success_iff_nodup_and_set_eq :
    ∀ (decl : List Variant) (expected : List String),
      (validate decl expected = true ↔
        expected.Nodup ∧ ∀ n, n ∈ expected ↔ n ∈ variantNames decl) ∧
      (build decl expected = BuildResult.proceed ↔ validate decl expected = true) := by
  intro decl expected
  refine ⟨validate_eq_true_iff decl expected, ?_⟩
  rw [build_eq_proceed_iff, validate, List.isEmpty_iff]

/-- C1 counterexample: for `MyEnum` and the expected list `[A, A, B, C]`, the
expected names equal the declared names as sets, yet validation fails (the
duplicate `use` import is a hard error), refuting the claimed equivalence. -/
theorem set_eq_without_success : (["A", "A", "B", "C"] : List String).toFinset =
      (variantNames myEnumVariants).toFinset ∧
    validate myEnumVariants ["A", "A", "B", "C"] = false := by
  decide

/-- C2: a declared variant absent from the expected list always fails the
check; when the expected list itself is clean (no duplicates, all names
declared), the failure is the non-exhaustive-match diagnostic, which names
every missing variant, the given one included. -/
theorem missing_variant_fails (decl : List Variant) (expected : List String)
    (v : String) (hv : v ∈ variantNames decl) (hnot : v ∉ expected) :
    validate decl expected = false ∧
      (expected.Nodup → (∀ n ∈ expected, n ∈ variantNames decl) →
        CompileError.nonExhaustiveMatch (missingVariants decl expected) ∈
            checkErrors decl expected ∧
          v ∈ missingVariants decl expected ∧
          ∀ m ∈ missingVariants decl expected, m ∈ variantNames decl ∧ m ∉ expected) := by
  have hvmiss : v ∈ missingVariants decl expected := by
    rw [missingVariants]
    exact List.mem_filter.mpr ⟨hv, by simpa using hnot⟩
  constructor
  · rw [validate_eq_false_iff]
    intro hnil
    exact hnot (((checkErrors_eq_nil_iff decl expected).mp hnil).2.2 v hv)
  · intro hnd hsub
    have hres := (resolutionErrors_eq_nil_iff decl expected).mpr ⟨hnd, hsub⟩
    have hne : missingVariants decl expected ≠ [] := List.ne_nil_of_mem hvmiss
    refine ⟨?_, hvmiss, ?_⟩
    · rw [checkErrors_of_resolution_nil hres, matchErrors, armErrors_eq_nil, if_neg hne]
      simp
    · intro m hm
      have h := List.mem_filter.mp (by rw [missingVariants] at hm; exact hm)
      exact ⟨h.1, by simpa using h.2⟩

/-- C2 witness: `MyEnum` with expected list `[A, B]` fails, and the
non-exhaustive-match diagnostic (carrying the missing variants, `C` among
them) is among the reported errors. -/
theorem missing_variant_fails_witness :
    validate myEnumVariants ["A", "B"] = false ∧
      CompileError.nonExhaustiveMatch (missingVariants myEnumVariants ["A", "B"]) ∈
        checkErrors myEnumVariants ["A", "B"] ∧
      "C" ∈ missingVariants myEnumVariants ["A", "B"] := by
  have h := missing_variant_fails myEnumVariants ["A", "B"] "C" (by decide) (by decide)
  exact ⟨h.1, (h.2 (by decide) (by decide)).1, (h.2 (by decide) (by decide)).2.1⟩

/-- C3: an expected name that is not a declared variant always fails the
check, and the unresolved-import diagnostic naming that identifier is among
the reported errors. -/
theorem unknown_variant_fails (decl : List Variant) (expected : List String)
    (x : String) (hx : x ∈ expected) (hnot : x ∉ variantNames decl) :
    validate decl expected = false ∧
      CompileError.unresolvedImport x ∈ checkErrors decl expected := by
  have hxerr : CompileError.unresolvedImport x ∈ unresolvedImportErrors decl expected := by
    rw [unresolvedImportErrors]
    exact List.mem_map_of_mem _ (List.mem_filter.mpr ⟨hx, by simpa using hnot⟩)
  have hxres : CompileError.unresolvedImport x ∈ resolutionErrors decl expected := by
    rw [resolutionErrors]
    exact List.mem_append_right _ hxerr
  have hce : checkErrors decl expected = resolutionErrors decl expected :=
    checkErrors_of_resolution_ne_nil (List.ne_nil_of_mem hxres)
  constructor
  · rw [validate_eq_false_iff, hce]
    exact List.ne_nil_of_mem hxres
  · rw [hce]
    exact hxres

/-- C3 witness: `MyEnum` with expected list `[A, B, C, D]` fails, and the
unresolved-import diagnostic names `D`. -/
theorem unknown_variant_fails_witness :
    validate myEnumVariants ["A", "B", "C", "D"] = false ∧
      CompileError.unresolvedImport "D" ∈ checkErrors myEnumVariants ["A", "B", "C", "D"] :=
  unknown_variant_fails myEnumVariants ["A", "B", "C", "D"] "D" (by decide) (by decide)

/-- C4: for the zero-variant enum `Never`, validation succeeds exactly on the
empty expected list: the empty list succeeds and every non-empty list fails. -/
theorem uninhabited_validate_iff :
    ∀ expected : List String, validate neverVariants expected = true ↔ expected = [] := by
  intro expected
  rw [validate_eq_true_iff]
  constructor
  · rintro ⟨-, hiff⟩
    refine List.eq_nil_iff_forall_not_mem.mpr fun n hn => ?_
    have h := (hiff n).mp hn
    simp [neverVariants, variantNames] at h
  · rintro rfl
    simp [neverVariants, variantNames]

/-- C5 (amended): a duplicated name in the expected list always fails the
check — the duplicate `use` import is a hard error — even when the name set
matches the declared variants; some duplicate-import diagnostic is reported. -/
theorem duplicate_name_causes_failure (decl : List Variant) (expected : List String)
    (h : ¬ expected.Nodup) :
    validate decl expected = false ∧
      ∃ n, CompileError.duplicateImport n ∈ checkErrors decl expected := by
  have hdup : duplicateImportErrors expected ≠ [] := by
    intro hnil
    exact h ((duplicateImportErrors_eq_nil_iff expected).mp hnil)
  obtain ⟨err, herr⟩ := List.exists_mem_of_ne_nil _ hdup
  rw [duplicateImportErrors] at herr
  obtain ⟨n, hn, rfl⟩ := List.mem_map.mp herr
  have hres : CompileError.duplicateImport n ∈ resolutionErrors decl expected := by
    rw [resolutionErrors]
    refine List.mem_append_left _ ?_
    rw [duplicateImportErrors]
    exact List.mem_map_of_mem _ hn
  have hce : checkErrors decl expected = resolutionErrors decl expected :=
    checkErrors_of_resolution_ne_nil (List.ne_nil_of_mem hres)
  refine ⟨?_, n, by rw [hce]; exact hres⟩
  rw [validate_eq_false_iff, hce]
  exact List.ne_nil_of_mem hres

/-- C5 witness: `MyEnum` with expected list `[A, A, B, C]` (a duplicated but
otherwise valid name) fails the check. -/
theorem duplicate_name_causes_failure_witness :
    validate myEnumVariants ["A", "A", "B", "C"] = false :=
  (duplicate_name_causes_failure myEnumVariants ["A", "A", "B", "C"] (by decide)).1

/-- C5 counterexample: duplicating the valid name `A` by itself flips the
outcome on `MyEnum` from success to failure, though the expected names still
equal the declared names as a set — refuting duplicate-insensitivity. -/
theorem duplicate_flips_outcome :
    validate myEnumVariants ["A", "A", "B", "C"] = false ∧
      validate myEnumVariants ["A", "B", "C"] = true ∧
      (["A", "A", "B", "C"] : List String).toFinset =
        (["A", "B", "C"] : List String).toFinset := by
  decide

/-- C6: validation is order-insensitive — permuting the expected list never
changes the outcome. -/
theorem validate_perm_invariant (decl : List Variant) {e₁ e₂ : List String}
    (hp : e₁.Perm e₂) : validate decl e₁ = validate decl e₂ := by
  have hiff : validate decl e₁ = true ↔ validate decl e₂ = true := by
    rw [validate_eq_true_iff, validate_eq_true_iff]
    constructor
    · rintro ⟨hnd, hmem⟩
      exact ⟨hp.nodup_iff.mp hnd, fun n => (Iff.symm hp.mem_iff).trans (hmem n)⟩
    · rintro ⟨hnd, hmem⟩
      exact ⟨hp.nodup_iff.mpr hnd, fun n => hp.mem_iff.trans (hmem n)⟩
  cases h1 : validate decl e₁ <;> cases h2 : validate decl e₂ <;> simp_all

/-- C6 witness: on `MyEnum`, the expected lists `[A, B, C]` and `[C, A, B]`
have identical outcomes. -/
theorem validate_perm_invariant_witness :
    validate myEnumVariants ["A", "B", "C"] = validate myEnumVariants ["C", "A", "B"] :=
  validate_perm_invariant myEnumVariants (by decide)

/-- C7: payload-shape noninterference — two enums with the same variant
identifiers produce identical errors, validation outcome and build result on
every expected list, whatever their payload shapes. -/
theorem payload_shape_noninterference (d₁ d₂ : List Variant) (e : List String)
    (h : variantNames d₁ = variantNames d₂) :
    checkErrors d₁ e = checkErrors d₂ e ∧ validate d₁ e = validate d₂ e ∧
      build d₁ e = build d₂ e := by
  have hres : resolutionErrors d₁ e = resolutionErrors d₂ e := by
    rw [resolutionErrors, resolutionErrors, unresolvedImportErrors,
      unresolvedImportErrors, h]
  have hmatch : matchErrors d₁ e = matchErrors d₂ e := by
    rw [matchErrors, matchErrors, armErrors_eq_nil, armErrors_eq_nil,
      missingVariants, missingVariants, h]
  have hce : checkErrors d₁ e = checkErrors d₂ e := by
    unfold checkErrors
    rw [hres, hmatch]
  refine ⟨hce, by rw [validate, validate, hce], ?_⟩
  unfold build
  rw [hce]

/-- C7 witness: `MyEnum` (unit, tuple and record payloads) and a relabelled
enum with the same identifiers but different payload shapes agree on the
expected list `[A, B]`. -/
theorem payload_shape_noninterference_witness :
    validate myEnumVariants ["A", "B"] = validate myEnumVariantsAlt ["A", "B"] :=
  (payload_shape_noninterference myEnumVariants myEnumVariantsAlt ["A", "B"]
    (by decide)).2.1

/-- C9: the outcome of every invocation is binary and final — exactly one of:
the build proceeds, validation succeeded and no error exists (silent success,
no trace), or the build aborts carrying the non-empty error list and
validation failed; a failure is never downgraded to a proceeding build. -/
theorem build_outcome_binary_fatal :
    ∀ (decl : List Variant) (expected : List String),
      Xor'
        (build decl expected = BuildResult.proceed ∧ validate decl expected = true ∧
          checkErrors decl expected = [])
        (build decl expected = BuildResult.abort (checkErrors decl expected) ∧
          validate decl expected = false ∧ checkErrors decl expected ≠ []) := by
  intro decl expected
  by_cases h : checkErrors decl expected = []
  · left
    refine ⟨⟨(build_eq_proceed_iff decl expected).mpr h, by rw [validate, h]; rfl, h⟩, ?_⟩
    rintro ⟨-, -, hne⟩
    exact hne h
  · right
    refine ⟨⟨build_of_checkErrors_ne_nil h, ?_, h⟩, ?_⟩
    · rw [validate_eq_false_iff]
      exact h
    · rintro ⟨-, -, hnil⟩
      exact h hnil

/-- C10: the expansion's body — the panic, the binding of a value of the
enum type, and the match — sits behind the literal guard `false`: executing
the expansion produces no event (in particular it never panics and never
holds a value of the enum type), while the unguarded body would panic at
once. -/
theorem expansion_dead_branch :
    ∀ expected : List String,
      exec (expansion expected) = [] ∧
      Event.panicked ∉ exec (expansion expected) ∧
      Event.boundEnumValue ∉ exec (expansion expected) ∧
      exec (expansionBody expected) = [Event.panicked] := by
  intro expected
  refine ⟨rfl, by simp [expansion, exec], by simp [expansion, exec], rfl⟩

end AssertEnumVariants
